import Mathlib

/-!
Shallow embedding of the PocketGrowth savings-ledger UI logic.

Numeric amounts are modelled as exact rationals; JavaScript number
formatting (toFixed) and parsing (parseFloat on the restricted input
grammar of the amount fields) are modelled on those rationals.
-/

set_option allowUnsafeReducibility true in
attribute [semireducible] Rat.add Rat.mul Rat.inv Rat.div Rat.sub Rat.neg

namespace PocketGrowth

/-! Decimal formatting and parsing utilities. -/

def pad2 (n : Nat) : String := if n < 10 then "0" ++ toString n else toString n

def pad4 (n : Nat) : String :=
  if n < 10 then "000" ++ toString n
  else if n < 100 then "00" ++ toString n
  else if n < 1000 then "0" ++ toString n
  else toString n

def digitsToNat (cs : List Char) : Nat := cs.foldl (fun a c => 10 * a + (c.toNat - 48)) 0

/-- Model of JavaScript toFixed(2) on exact rationals: round half up to a
whole number of cents, then print with exactly two fractional digits. -/
def fmt2 (q : ℚ) : String :=
  let n : ℤ := ⌊q * 100 + 1 / 2⌋
  let s := n.natAbs
  let core := toString (s / 100) ++ "." ++ pad2 (s % 100)
  if n < 0 then "-" ++ core else core

/-- Model of Number(x.toFixed(2)): the rational rounded to cents. -/
def round2 (q : ℚ) : ℚ := ((⌊q * 100 + 1 / 2⌋ : ℤ) : ℚ) / 100

/-- Does pattern p lead list l (character by character)? -/
def leadMatch : List Char → List Char → Bool
  | [], _ => true
  | _ :: _, [] => false
  | a :: p, b :: l => a == b && leadMatch p l

/-- Substring occurrence test on character lists, modelling String.includes. -/
def hasSub (pat : List Char) : List Char → Bool
  | [] => leadMatch pat []
  | b :: l => leadMatch pat (b :: l) || hasSub pat l

/-- Model of s.includes(pat) from JavaScript. -/
def strHas (s pat : String) : Bool := hasSub pat.data s.data

/-- Model of String.prototype.trim: strip leading and trailing whitespace. -/
def jsTrim (s : String) : String :=
  String.mk (((s.data.dropWhile Char.isWhitespace).reverse.dropWhile Char.isWhitespace).reverse)

/-! Dates and ISO week numbers (embedding the dayjs isoWeek plugin). -/

structure DateYMD where
  year : Nat
  month : Nat
  day : Nat
deriving DecidableEq

def isLeap (y : Nat) : Bool := (y % 4 == 0 && y % 100 != 0) || y % 400 == 0

def daysInMonth (y m : Nat) : Nat :=
  match m with
  | 1 => 31
  | 2 => if isLeap y then 29 else 28
  | 3 => 31
  | 4 => 30
  | 5 => 31
  | 6 => 30
  | 7 => 31
  | 8 => 31
  | 9 => 30
  | 10 => 31
  | 11 => 30
  | _ => 31

def dayOfYear (y m d : Nat) : Nat :=
  (List.range (m - 1)).foldl (fun a i => a + daysInMonth y (i + 1)) 0 + d

/-- Days since 0000-03-01 in the proleptic Gregorian calendar (valid for
year at least 1), following the standard civil-from-days construction. -/
def absDays (y m d : Nat) : Nat :=
  let y' := if m ≤ 2 then y - 1 else y
  let era := y' / 400
  let yoe := y' % 400
  let mp := (m + 9) % 12
  let doy := (153 * mp + 2) / 5 + (d - 1)
  let doe := yoe * 365 + yoe / 4 - yoe / 100 + doy
  era * 146097 + doe

/-- ISO weekday: Monday = 1 through Sunday = 7. -/
def isoWeekday (y m d : Nat) : Nat := (absDays y m d + 2) % 7 + 1

def isoLongYear (y : Nat) : Bool :=
  isoWeekday y 1 1 == 4 || (isLeap y && isoWeekday y 1 1 == 3)

def isoWeeksInYear (y : Nat) : Nat := if isoLongYear y then 53 else 52

/-- ISO 8601 week number of a date, as computed by the dayjs isoWeek plugin. -/
def isoWeek (dt : DateYMD) : Nat :=
  let wd := isoWeekday dt.year dt.month dt.day
  let w := (dayOfYear dt.year dt.month dt.day + 10 - wd) / 7
  if w = 0 then isoWeeksInYear (dt.year - 1)
  else if w = 53 ∧ isoLongYear dt.year = false then 1
  else w

/-! Amount input fields (handleAmountChange and getNumericAmount in
AddAllowanceForm and UnlockForm). -/

/-- The regular expression of the amount fields: digits, at most one
decimal point, then digits (each part possibly empty). -/
def matchAmount (s : String) : Bool :=
  match s.data.dropWhile Char.isDigit with
  | [] => true
  | c :: rest => c == '.' && rest.all Char.isDigit

/-- handleAmountChange: keep the new field value only when it is empty or
matches the amount pattern, otherwise keep the current value. -/
def handleAmountChange (current incoming : String) : String :=
  if incoming = "" ∨ matchAmount incoming = true then incoming else current

/-- parseFloat on the restricted grammar of the amount fields: an integer
part, an optional decimal point, then a fractional part. -/
def parseFloatVal (cs : List Char) : ℚ :=
  let ip := cs.takeWhile Char.isDigit
  let rest := cs.dropWhile Char.isDigit
  let fp := match rest with
    | '.' :: t => t.takeWhile Char.isDigit
    | _ => []
  (digitsToNat ip : ℚ) + (digitsToNat fp : ℚ) / 10 ^ fp.length

/-- getNumericAmount: empty string and a lone dot give 0; otherwise
parseFloat, with NaN (no digit at all) coerced to 0 by the or-zero guard. -/
def getNumericAmount (s : String) : ℚ :=
  if s = "" ∨ s = "." then 0
  else if s.data.any Char.isDigit then parseFloatVal s.data else 0

/-! External-store outcomes shared by the form handlers. -/

structure Err where
  code : String
  message : String
deriving DecidableEq

/-- Outcome of the savings-row fetch: a row, the PGRST116 not-found
outcome (treated as no row), or any other failure. -/
inductive FetchRes
  | row (lockedAmount : ℚ)
  | notFound
  | failure (e : Err)
deriving DecidableEq

/-- A persistence write attempted by a form handler, carrying its payload. -/
inductive WriteA
  | insertTxn (notes : Option String)
  | updateSavings (newLocked : ℚ)
  | insertSavings (newLocked : ℚ)
deriving DecidableEq

structure FormResult where
  msg : String
  writes : List WriteA
  ok : Bool
deriving DecidableEq

def countTxnInserts (l : List WriteA) : Nat :=
  l.countP fun w => match w with
    | WriteA.insertTxn _ => true
    | _ => false

def countSavingsWrites (l : List WriteA) : Nat :=
  l.countP fun w => match w with
    | WriteA.updateSavings _ => true
    | WriteA.insertSavings _ => true
    | _ => false

/-! AddAllowanceForm.handleAddAllowance. -/

structure AllowStore where
  insertTxnErr : Option Err
  savingsFetch : FetchRes
  savingsWriteErr : Option Err
deriving DecidableEq

def allowCatchMsg : String := "Error adding allowance. Please try again."

/-- handleAddAllowance: validate the amount, insert the allowance
transaction, fetch the savings row, add amount times percent over 100 to
the fetched locked amount (no rounding), and update or insert the row. -/
def handleAddAllowance (store : AllowStore) (numericAmount : ℚ) (savingsPercent : ℤ) :
    FormResult :=
  if numericAmount ≤ 0 then ⟨"Please enter a valid amount.", [], false⟩
  else
    match store.insertTxnErr with
    | some _ => ⟨allowCatchMsg, [WriteA.insertTxn none], false⟩
    | none =>
      match store.savingsFetch with
      | FetchRes.failure _ => ⟨allowCatchMsg, [WriteA.insertTxn none], false⟩
      | fr =>
        let currentLocked : ℚ := match fr with
          | FetchRes.row r => r
          | _ => 0
        let savingsAmount := numericAmount * ((savingsPercent : ℚ) / 100)
        let newLocked := currentLocked + savingsAmount
        let w := match fr with
          | FetchRes.row _ => WriteA.updateSavings newLocked
          | _ => WriteA.insertSavings newLocked
        match store.savingsWriteErr with
        | some _ => ⟨allowCatchMsg, [WriteA.insertTxn none, w], false⟩
        | none =>
            ⟨"✅ $" ++ fmt2 numericAmount ++ " added! $" ++ fmt2 savingsAmount ++ " ("
              ++ toString savingsPercent ++ "%) saved automatically.",
             [WriteA.insertTxn none, w], true⟩

/-! UnlockForm.handleUnlock. -/

structure UnlockStore where
  insertTxnErr : Option Err
  retryInsertErr : Option Err
  savingsFetch : FetchRes
  savingsWriteErr : Option Err
deriving DecidableEq

def unlockCatchMsg (e : Err) : String :=
  if e.code = "42501" then "Permission denied. Please check database permissions."
  else if e.message ≠ "" then "Error: " ++ e.message
  else "Error unlocking. Please try again."

/-- The retry condition of the unlock insert: the error message mentions
the notes column. -/
def notesColumnErr (e : Err) : Bool := strHas e.message "notes" || strHas e.message "column"

def reasonLabel (id : String) : String :=
  if id = "emergency" then "Emergency expense"
  else if id = "education" then "Education"
  else if id = "investment" then "Investment opportunity"
  else if id = "travel" then "Travel"
  else if id = "family" then "Family needs"
  else if id = "health" then "Health & Wellness"
  else if id = "goal" then "Specific goal purchase"
  else if id = "other" then "Other reason"
  else "undefined"

/-- The savings fetch-and-write phase shared by the unlock success paths. -/
def unlockSavingsPhase (store : UnlockStore) (currentLocked numericAmount : ℚ)
    (label : String) (pre : List WriteA) : FormResult :=
  match store.savingsFetch with
  | FetchRes.failure e => ⟨unlockCatchMsg e, pre, false⟩
  | fr =>
    let newLocked := currentLocked - numericAmount
    let w := match fr with
      | FetchRes.row _ => WriteA.updateSavings newLocked
      | _ => WriteA.insertSavings newLocked
    match store.savingsWriteErr with
    | some e => ⟨unlockCatchMsg e, pre ++ [w], false⟩
    | none => ⟨"Successfully unlocked $" ++ fmt2 numericAmount ++ " for " ++ label,
               pre ++ [w], true⟩

/-- handleUnlock: validate amount, reason and notes; insert the unlock
transaction (retrying once without notes when the error message mentions
the notes column); then fetch and write the savings row. -/
def handleUnlock (store : UnlockStore) (currentLocked numericAmount : ℚ)
    (selectedReason notes : String) : FormResult :=
  if numericAmount ≤ 0 ∨ currentLocked < numericAmount then
    ⟨"Enter a valid amount up to $" ++ fmt2 currentLocked, [], false⟩
  else if selectedReason = "" then
    ⟨"Please select a reason for unlocking your savings", [], false⟩
  else if selectedReason = "other" ∧ jsTrim notes = "" then
    ⟨"Please provide details for your reason", [], false⟩
  else
    let payload : Option String := if jsTrim notes = "" then none else some (jsTrim notes)
    let first := [WriteA.insertTxn payload]
    match store.insertTxnErr with
    | none => unlockSavingsPhase store currentLocked numericAmount
        (reasonLabel selectedReason) first
    | some e =>
      if notesColumnErr e then
        let both := first ++ [WriteA.insertTxn none]
        match store.retryInsertErr with
        | some e2 => ⟨unlockCatchMsg e2, both, false⟩
        | none => unlockSavingsPhase store currentLocked numericAmount
            (reasonLabel selectedReason) both
      else ⟨unlockCatchMsg e, first, false⟩

/-! AccountSettingsForm.handleUpdate. -/

inductive SettingWrite
  | upsertSetting (percent : ℤ)
deriving DecidableEq

structure SettingsResult where
  msg : String
  writes : List SettingWrite
  ok : Bool
deriving DecidableEq

/-- handleUpdate: unconditionally upsert the current slider value; no
range check appears anywhere in the handler. -/
def handleUpdate (savingsPercent : ℤ) (upsertErr : Option Err) : SettingsResult :=
  match upsertErr with
  | some e =>
      ⟨if e.message ≠ "" then "Error: " ++ e.message
        else "Failed to update savings preference.",
       [SettingWrite.upsertSetting savingsPercent], false⟩
  | none =>
      ⟨"✅ Savings preference updated to " ++ toString savingsPercent ++ "%",
       [SettingWrite.upsertSetting savingsPercent], true⟩

/-! MonthlySavingsGraph.fetchData: the time-bucketed aggregator. -/

inductive TxType
  | allowance
  | unlock
deriving DecidableEq

structure Txn where
  ty : TxType
  amount : ℚ
  createdAt : DateYMD
deriving DecidableEq

inductive Interval
  | daily
  | weekly
  | monthly
  | yearly
deriving DecidableEq

/-- Contribution of one transaction to the running total: the code
multiplies every allowance amount by the literal 0.2 and subtracts the
full amount of every unlock. -/
def contrib (t : Txn) : ℚ :=
  match t.ty with
  | TxType.allowance => t.amount * (2 / 10)
  | TxType.unlock => -t.amount

/-- The dateKey computed from created_at per interval. -/
def dateKeyOf (g : Interval) (d : DateYMD) : String :=
  match g with
  | Interval.daily => pad4 d.year ++ "-" ++ pad2 d.month ++ "-" ++ pad2 d.day
  | Interval.weekly => "Week " ++ toString (isoWeek d)
  | Interval.monthly => pad4 d.year ++ "-" ++ pad2 d.month
  | Interval.yearly => pad4 d.year

/-- Assignment into the savingsByDate object: replace the value of an
existing key in place, or append a new key at the end. -/
def upsert : List (String × ℚ) → String → ℚ → List (String × ℚ)
  | [], k, v => [(k, v)]
  | p :: ps, k, v => if p.1 = k then (k, v) :: ps else p :: upsert ps k v

/-- One loop iteration: bump the running total, then store its snapshot
under the dateKey of the transaction. -/
def step (g : Interval) (acc : ℚ × List (String × ℚ)) (t : Txn) : ℚ × List (String × ℚ) :=
  let r := acc.1 + contrib t
  (r, upsert acc.2 (dateKeyOf g t.createdAt) r)

/-- The savingsByDate object after the forEach loop, as an ordered
association list. -/
def buildPairs (g : Interval) (txs : List Txn) : List (String × ℚ) :=
  (txs.foldl (step g) (0, [])).2

/-- The running total after a transaction list. -/
def cumul (txs : List Txn) : ℚ := txs.foldl (fun a t => a + contrib t) 0

def monthName : Nat → String
  | 1 => "January"
  | 2 => "February"
  | 3 => "March"
  | 4 => "April"
  | 5 => "May"
  | 6 => "June"
  | 7 => "July"
  | 8 => "August"
  | 9 => "September"
  | 10 => "October"
  | 11 => "November"
  | 12 => "December"
  | _ => "Invalid Date"

/-- The x-axis label formatting applied to a dateKey: monthly keys
YYYY-MM become full month name plus year; all other keys pass through
(the weekly branch strips and re-prepends the same Week marker). -/
def formatLabel (g : Interval) (key : String) : String :=
  match g with
  | Interval.monthly =>
      monthName (digitsToNat (key.data.drop 5)) ++ " " ++ String.mk (key.data.take 4)
  | _ => key

/-- The chart series: formatted label and value rounded via toFixed(2). -/
def buildSeries (g : Interval) (txs : List Txn) : List (String × ℚ) :=
  (buildPairs g txs).map fun p => (formatLabel g p.1, round2 p.2)

/-- Chronological order on dates, lexicographic on year, month, day. -/
def dateLE (a b : DateYMD) : Prop :=
  a.year < b.year ∨ (a.year = b.year ∧ (a.month < b.month ∨ (a.month = b.month ∧ a.day ≤ b.day)))

instance (a b : DateYMD) : Decidable (dateLE a b) := by
  unfold dateLE
  infer_instance

/-- The fetched transaction list is ordered by created_at ascending. -/
def Chronological (txs : List Txn) : Prop :=
  txs.Pairwise fun a b => dateLE a.createdAt b.createdAt

instance instDecChron (txs : List Txn) : Decidable (Chronological txs) := by
  unfold Chronological
  exact List.instDecidablePairwise txs

/-- Equal elements of the list are consecutive: every element is either
immediately repeated or never occurs again. -/
def contigP : List String → Prop
  | [] => True
  | [_] => True
  | a :: b :: rest => (a = b ∨ a ∉ b :: rest) ∧ contigP (b :: rest)

instance instDecContig : (l : List String) → Decidable (contigP l)
  | [] => .isTrue trivial
  | [_] => .isTrue trivial
  | _ :: b :: rest =>
      have : Decidable (contigP (b :: rest)) := instDecContig (b :: rest)
      inferInstanceAs (Decidable (_ ∧ _))

/-- Ordered lookup in the association list. -/
def lookupQ : List (String × ℚ) → String → Option ℚ
  | [], _ => none
  | p :: ps, k => if p.1 = k then some p.2 else lookupQ ps k

/-! Support lemmas. -/

theorem round2_mono {x y : ℚ} (h : x ≤ y) : round2 x ≤ round2 y := by
  unfold round2
  have h1 : (⌊x * 100 + 1 / 2⌋ : ℤ) ≤ ⌊y * 100 + 1 / 2⌋ := by
    apply Int.floor_le_floor
    linarith
  have h2 : ((⌊x * 100 + 1 / 2⌋ : ℤ) : ℚ) ≤ ((⌊y * 100 + 1 / 2⌋ : ℤ) : ℚ) :=
    Int.cast_le.mpr h1
  linarith

theorem cumul_shift (txs : List Txn) : ∀ a : ℚ,
    txs.foldl (fun x t => x + contrib t) a = a + cumul txs := by
  induction txs with
  | nil =>
    intro a
    simp [cumul]
  | cons t rest ih =>
    intro a
    simp only [cumul, List.foldl_cons]
    rw [ih (a + contrib t), ih (0 + contrib t)]
    ring

theorem cumul_app (txs : List Txn) (t : Txn) :
    cumul (txs ++ [t]) = cumul txs + contrib t := by
  simp only [cumul, List.foldl_append, List.foldl_cons, List.foldl_nil]

theorem cumul_cons (t : Txn) (txs : List Txn) :
    cumul (t :: txs) = contrib t + cumul txs := by
  simp only [cumul, List.foldl_cons]
  rw [cumul_shift txs (0 + contrib t)]
  simp only [cumul]
  ring

theorem lookupQ_upsert_self (ps : List (String × ℚ)) (k : String) (v : ℚ) :
    lookupQ (upsert ps k v) k = some v := by
  induction ps with
  | nil => simp [upsert, lookupQ]
  | cons p ps ih =>
    by_cases h : p.1 = k
    · simp [upsert, lookupQ, h]
    · simp [upsert, lookupQ, h, ih]

theorem lookupQ_upsert_ne (ps : List (String × ℚ)) (k k' : String) (v : ℚ)
    (h : k' ≠ k) : lookupQ (upsert ps k v) k' = lookupQ ps k' := by
  induction ps with
  | nil =>
    simp only [upsert, lookupQ]
    rw [if_neg (fun he => h he.symm)]
  | cons p ps ih =>
    by_cases hp : p.1 = k
    · simp only [upsert, if_pos hp, lookupQ]
      have h2 : ¬ p.1 = k' := by
        rw [hp]
        exact fun he => h he.symm
      rw [if_neg (fun he : k = k' => h he.symm), if_neg h2]
    · simp only [upsert, if_neg hp, lookupQ]
      by_cases hk' : p.1 = k'
      · rw [if_pos hk', if_pos hk']
      · rw [if_neg hk', if_neg hk']
        exact ih

theorem lookupQ_mem (ps : List (String × ℚ)) (k : String) (v : ℚ)
    (h : lookupQ ps k = some v) : (k, v) ∈ ps := by
  induction ps with
  | nil => simp [lookupQ] at h
  | cons p ps ih =>
    by_cases hp : p.1 = k
    · simp only [lookupQ, if_pos hp] at h
      have : p = (k, v) := by
        obtain ⟨p1, p2⟩ := p
        simp only [Option.some.injEq] at h
        simp_all
      exact this ▸ List.mem_cons_self p ps
    · simp only [lookupQ, if_neg hp] at h
      exact List.mem_cons_of_mem p (ih h)

theorem keys_upsert (ps : List (String × ℚ)) (k : String) (v : ℚ) :
    (upsert ps k v).map Prod.fst =
      if k ∈ ps.map Prod.fst then ps.map Prod.fst else ps.map Prod.fst ++ [k] := by
  induction ps with
  | nil => simp [upsert]
  | cons p ps ih =>
    by_cases hp : p.1 = k
    · simp [upsert, hp]
    · simp only [upsert, if_neg hp, List.map_cons, ih]
      by_cases hm : k ∈ ps.map Prod.fst
      · rw [if_pos hm, if_pos (by simp [hm])]
      · rw [if_neg hm, if_neg ?hn, List.cons_append]
        case hn =>
          intro hin
          rcases List.mem_cons.mp hin with he | hmm
          · exact hp he.symm
          · exact hm hmm

theorem nodup_keys_upsert (ps : List (String × ℚ)) (k : String) (v : ℚ)
    (h : (ps.map Prod.fst).Nodup) : ((upsert ps k v).map Prod.fst).Nodup := by
  rw [keys_upsert]
  by_cases hm : k ∈ ps.map Prod.fst
  · rw [if_pos hm]
    exact h
  · rw [if_neg hm]
    simp [List.nodup_append, h, hm]

theorem nodup_keys_foldl (g : Interval) : ∀ (txs : List Txn) (acc : ℚ × List (String × ℚ)),
    (acc.2.map Prod.fst).Nodup → (((txs.foldl (step g) acc)).2.map Prod.fst).Nodup := by
  intro txs
  induction txs with
  | nil =>
    intro acc h
    exact h
  | cons t rest ih =>
    intro acc h
    simp only [List.foldl_cons]
    exact ih _ (nodup_keys_upsert acc.2 _ _ h)

theorem foldl_fst (g : Interval) : ∀ (txs : List Txn) (r : ℚ) (ps : List (String × ℚ)),
    (txs.foldl (step g) (r, ps)).1 = r + cumul txs := by
  intro txs
  induction txs with
  | nil =>
    intro r ps
    simp [cumul]
  | cons t rest ih =>
    intro r ps
    simp only [List.foldl_cons, step]
    rw [ih]
    rw [cumul_cons]
    ring

theorem take_append_le {α : Type} (l l' : List α) : ∀ (n : Nat), n ≤ l.length →
    (l ++ l').take n = l.take n := by
  induction l with
  | nil =>
    intro n h
    have h0 : n = 0 := Nat.le_zero.mp (by simpa using h)
    subst h0
    simp
  | cons a t ih =>
    intro n h
    cases n with
    | zero => simp
    | succ m =>
      simp only [List.cons_append, List.take_succ_cons]
      rw [ih m (by simpa using h)]

theorem get_append_left {α : Type} (l l' : List α) : ∀ (i : Nat) (h : i < l.length)
    (h' : i < (l ++ l').length), (l ++ l').get ⟨i, h'⟩ = l.get ⟨i, h⟩ := by
  induction l with
  | nil =>
    intro i h
    exact absurd h (by simp)
  | cons a t ih =>
    intro i h h'
    cases i with
    | zero => rfl
    | succ j => exact ih j (Nat.lt_of_succ_lt_succ h) _

theorem get_append_last {α : Type} (l : List α) (t : α) :
    ∀ (h : l.length < (l ++ [t]).length), (l ++ [t]).get ⟨l.length, h⟩ = t := by
  induction l with
  | nil =>
    intro h
    rfl
  | cons a l2 ih =>
    intro h
    exact ih _

theorem snapshot_foldl (g : Interval) (txs : List Txn) : ∀ (r : ℚ)
    (ps : List (String × ℚ)) (i : Nat) (hi : i < txs.length),
    (∀ (j : Nat) (hj : j < txs.length), i < j →
      dateKeyOf g ((txs.get ⟨j, hj⟩).createdAt) ≠ dateKeyOf g ((txs.get ⟨i, hi⟩).createdAt)) →
    lookupQ ((txs.foldl (step g) (r, ps)).2) (dateKeyOf g ((txs.get ⟨i, hi⟩).createdAt)) =
      some (r + cumul (txs.take (i + 1))) := by
  induction txs using List.reverseRecOn with
  | nil =>
    intro r ps i hi
    exact absurd hi (by simp)
  | append_singleton l t ih =>
    intro r ps i hi hlast
    rw [List.foldl_append]
    simp only [List.foldl_cons, List.foldl_nil, step]
    by_cases hil : i = l.length
    · subst hil
      rw [get_append_last l t hi]
      rw [lookupQ_upsert_self]
      congr 1
      rw [foldl_fst]
      rw [show (l ++ [t]).take (l.length + 1) = l ++ [t] from
        List.take_of_length_le (by simp)]
      rw [cumul_app]
      ring
    · have hil' : i < l.length := by
        have hlen : i < l.length + 1 := by simpa using hi
        omega
      have hgeti : ((l ++ [t]).get ⟨i, hi⟩) = l.get ⟨i, hil'⟩ :=
        get_append_left l [t] i hil' hi
      have hkt : dateKeyOf g (t.createdAt) ≠
          dateKeyOf g (((l ++ [t]).get ⟨i, hi⟩).createdAt) := by
        have h := hlast l.length (by simp) (by omega)
        rw [get_append_last l t (by simp)] at h
        exact h
      rw [lookupQ_upsert_ne _ _ _ _ (fun he => hkt he.symm)]
      rw [hgeti]
      rw [take_append_le l [t] (i + 1) (by omega)]
      apply ih r ps i hil'
      intro j hj hij
      have h := hlast j (by simp; omega) hij
      rw [get_append_left l [t] j hj (by simp; omega), hgeti] at h
      exact h

theorem getLast?_cc {α : Type} (a b : α) (l : List α) :
    (a :: b :: l).getLast? = (b :: l).getLast? := by
  simp [List.getLast?]

theorem mem_of_getLast?_eq {α : Type} : ∀ (l : List α) (x : α),
    l.getLast? = some x → x ∈ l := by
  intro l
  induction l with
  | nil =>
    intro x h
    exact absurd h (by simp)
  | cons a t ih =>
    intro x h
    cases t with
    | nil =>
      have hax : a = x := by simpa using h
      exact hax ▸ List.mem_cons_self a []
    | cons b t2 =>
      rw [getLast?_cc] at h
      exact List.mem_cons_of_mem a (ih x h)

theorem getLast?_map_fst : ∀ (ps : List (String × ℚ)),
    (ps.map Prod.fst).getLast? = ps.getLast?.map Prod.fst := by
  intro ps
  induction ps with
  | nil => rfl
  | cons p t ih =>
    cases t with
    | nil => rfl
    | cons q t2 =>
      rw [List.map_cons, List.map_cons, getLast?_cc, getLast?_cc, ← List.map_cons]
      exact ih

theorem dropLast_concat_getLast {α : Type} : ∀ (l : List α) (k : α),
    l.getLast? = some k → l.dropLast ++ [k] = l := by
  intro l
  induction l with
  | nil =>
    intro k h
    exact absurd h (by simp)
  | cons a t ih =>
    intro k h
    cases t with
    | nil =>
      have hak : a = k := by simpa using h
      subst hak
      rfl
    | cons b t2 =>
      rw [getLast?_cc] at h
      calc (a :: b :: t2).dropLast ++ [k] = a :: ((b :: t2).dropLast ++ [k]) := rfl
        _ = a :: b :: t2 := by rw [ih k h]

theorem map_dropLast_fst : ∀ (ps : List (String × ℚ)),
    ps.dropLast.map Prod.fst = (ps.map Prod.fst).dropLast := by
  intro ps
  induction ps with
  | nil => rfl
  | cons p t ih =>
    cases t with
    | nil => rfl
    | cons q t2 =>
      calc (p :: q :: t2).dropLast.map Prod.fst
          = p.1 :: (q :: t2).dropLast.map Prod.fst := rfl
        _ = p.1 :: ((q :: t2).map Prod.fst).dropLast := by rw [ih]
        _ = ((p :: q :: t2).map Prod.fst).dropLast := rfl

theorem contigP_tail (a : String) (l : List String) (h : contigP (a :: l)) :
    contigP l := by
  cases l with
  | nil => trivial
  | cons b t => exact h.2

theorem contig_last_of_mem : ∀ (l : List String) (k : String) (rest : List String),
    contigP (l ++ k :: rest) → l.Nodup → k ∈ l → l.getLast? = some k := by
  intro l
  induction l with
  | nil =>
    intro k rest _ _ hk
    exact absurd hk (List.not_mem_nil k)
  | cons a l2 ih =>
    intro k rest hc hn hk
    have hna : a ∉ l2 := (List.nodup_cons.mp hn).1
    cases l2 with
    | nil =>
      have hka : k = a := by simpa using hk
      simp [hka]
    | cons b t =>
      have hc' : contigP ((b :: t) ++ k :: rest) := hc.2
      have hn' : (b :: t).Nodup := (List.nodup_cons.mp hn).2
      by_cases hka : k = a
      · exfalso
        rcases hc.1 with hab | hnot
        · exact hna (hab ▸ List.mem_cons_self b t)
        · apply hnot
          subst hka
          exact List.mem_cons_of_mem b
            (List.mem_append_right t (List.mem_cons_self k rest))
      · have hk' : k ∈ b :: t := by
          rcases List.mem_cons.mp hk with h | h
          · exact absurd h hka
          · exact h
        rw [getLast?_cc]
        exact ih k rest hc' hn' hk'

theorem contig_drop_dup : ∀ (l : List String) (k : String) (rest : List String),
    contigP (l ++ k :: rest) → l.getLast? = some k → contigP (l ++ rest) := by
  intro l
  induction l with
  | nil =>
    intro k rest _ h
    exact absurd h (by simp)
  | cons a l2 ih =>
    intro k rest hc hl
    cases l2 with
    | nil =>
      have hak : a = k := by simpa using hl
      subst hak
      cases rest with
      | nil => trivial
      | cons c r2 => exact hc.2
    | cons b t =>
      rw [getLast?_cc] at hl
      have hnext := ih k rest hc.2 hl
      refine ⟨?_, hnext⟩
      rcases hc.1 with hab | hnot
      · exact Or.inl hab
      · right
        intro hmem
        apply hnot
        rcases List.mem_cons.mp hmem with h | h
        · exact List.mem_cons.mpr (Or.inl h)
        · rcases List.mem_append.mp h with h1 | h1
          · exact List.mem_cons_of_mem b (List.mem_append_left _ h1)
          · exact List.mem_cons_of_mem b
              (List.mem_append_right _ (List.mem_cons_of_mem k h1))

theorem upsert_not_mem : ∀ (ps : List (String × ℚ)) (k : String) (v : ℚ),
    k ∉ ps.map Prod.fst → upsert ps k v = ps ++ [(k, v)] := by
  intro ps
  induction ps with
  | nil =>
    intro k v _
    rfl
  | cons p ps2 ih =>
    intro k v h
    have h1 : ¬ p.1 = k := by
      intro he
      exact h (List.mem_map.mpr ⟨p, List.mem_cons_self p ps2, he⟩)
    simp only [upsert, if_neg h1]
    rw [ih k v (fun hm => h (by simp [hm]))]
    rfl

theorem upsert_last : ∀ (ps : List (String × ℚ)) (k : String) (v w : ℚ),
    (ps.map Prod.fst).Nodup → ps.getLast? = some (k, w) →
    upsert ps k v = ps.dropLast ++ [(k, v)] := by
  intro ps
  induction ps with
  | nil =>
    intro k v w _ h
    exact absurd h (by simp)
  | cons p ps2 ih =>
    intro k v w hn hl
    cases ps2 with
    | nil =>
      have hp : p = (k, w) := by simpa using hl
      subst hp
      simp [upsert]
    | cons q t =>
      rw [getLast?_cc] at hl
      have hkmem : ((k, w) : String × ℚ) ∈ q :: t := mem_of_getLast?_eq _ _ hl
      have hk : k ∈ (q :: t).map Prod.fst := List.mem_map.mpr ⟨(k, w), hkmem, rfl⟩
      have hp1 : p.1 ∉ (q :: t).map Prod.fst := by
        rw [List.map_cons] at hn
        exact (List.nodup_cons.mp hn).1
      have hne : ¬ p.1 = k := fun he => hp1 (he ▸ hk)
      rw [upsert, if_neg hne, ih k v w ?tn hl]
      · rfl
      case tn =>
        rw [List.map_cons] at hn
        exact (List.nodup_cons.mp hn).2

theorem monotone_foldl (g : Interval) : ∀ (txs : List Txn) (r : ℚ)
    (ps : List (String × ℚ)),
    (∀ t ∈ txs, 0 ≤ contrib t) →
    contigP (ps.map Prod.fst ++ txs.map fun t => dateKeyOf g t.createdAt) →
    (ps.map Prod.fst).Nodup →
    (∀ v ∈ ps.map Prod.snd, v ≤ r) →
    List.Pairwise (· ≤ ·) (ps.map Prod.snd) →
    List.Pairwise (· ≤ ·) ((txs.foldl (step g) (r, ps)).2.map Prod.snd) := by
  intro txs
  induction txs with
  | nil =>
    intro r ps _ _ _ _ hp
    exact hp
  | cons t rest ih =>
    intro r ps hc hcont hn hb hp
    simp only [List.foldl_cons, step]
    simp only [List.map_cons] at hcont
    have hr : r ≤ r + contrib t := le_add_of_nonneg_right (hc t (by simp))
    by_cases hmem : dateKeyOf g t.createdAt ∈ ps.map Prod.fst
    · have hlastk : (ps.map Prod.fst).getLast? = some (dateKeyOf g t.createdAt) :=
        contig_last_of_mem (ps.map Prod.fst) _ _ hcont hn hmem
      rcases hpl2 : ps.getLast? with _ | pl
      · rw [getLast?_map_fst, hpl2] at hlastk
        exact absurd hlastk (by simp)
      · have hpl1 : pl.1 = dateKeyOf g t.createdAt := by
          rw [getLast?_map_fst, hpl2] at hlastk
          simpa using hlastk
        have hpl' : ps.getLast? = some (dateKeyOf g t.createdAt, pl.2) := by
          rw [hpl2]
          exact congrArg some (by rw [← hpl1])
        rw [upsert_last ps _ (r + contrib t) pl.2 hn hpl']
        have hkeys : (ps.dropLast ++ [(dateKeyOf g t.createdAt, r + contrib t)]).map
            Prod.fst = ps.map Prod.fst := by
          rw [List.map_append, map_dropLast_fst]
          exact dropLast_concat_getLast _ _ hlastk
        apply ih (r + contrib t) _
        · intro t' ht'
          exact hc t' (List.mem_cons_of_mem t ht')
        · rw [hkeys]
          exact contig_drop_dup (ps.map Prod.fst) _ _ hcont hlastk
        · rw [hkeys]
          exact hn
        · intro v hv
          rw [List.map_append] at hv
          rcases List.mem_append.mp hv with h | h
          · have hvv : v ∈ ps.map Prod.snd := by
              rcases List.mem_map.mp h with ⟨p', hp'd, he⟩
              exact List.mem_map.mpr ⟨p', (List.dropLast_sublist ps).subset hp'd, he⟩
            exact le_trans (hb v hvv) hr
          · have hveq : v = r + contrib t := by simpa using h
            exact le_of_eq hveq
        · rw [List.map_append]
          refine List.pairwise_append.mpr ⟨?_, by simp, ?_⟩
          · exact hp.sublist ((List.dropLast_sublist ps).map Prod.snd)
          · intro a ha b hb2
            have hbeq : b = r + contrib t := by simpa using hb2
            subst hbeq
            have hav : a ∈ ps.map Prod.snd := by
              rcases List.mem_map.mp ha with ⟨p', hp'd, he⟩
              exact List.mem_map.mpr ⟨p', (List.dropLast_sublist ps).subset hp'd, he⟩
            exact le_trans (hb a hav) hr
    · rw [upsert_not_mem ps _ (r + contrib t) hmem]
      apply ih (r + contrib t) _
      · intro t' ht'
        exact hc t' (List.mem_cons_of_mem t ht')
      · have hsame : (ps ++ [(dateKeyOf g t.createdAt, r + contrib t)]).map Prod.fst ++
            rest.map (fun t => dateKeyOf g t.createdAt) =
            ps.map Prod.fst ++ dateKeyOf g t.createdAt ::
              rest.map (fun t => dateKeyOf g t.createdAt) := by
          rw [List.map_append, List.append_assoc]
          rfl
        rw [hsame]
        exact hcont
      · rw [List.map_append]
        refine List.Nodup.append hn (by simp) ?_
        intro a ha hb2
        have : a = dateKeyOf g t.createdAt := by simpa using hb2
        exact hmem (this ▸ ha)
      · intro v hv
        rw [List.map_append] at hv
        rcases List.mem_append.mp hv with h | h
        · exact le_trans (hb v h) hr
        · have hveq : v = r + contrib t := by simpa using h
          exact le_of_eq hveq
      · rw [List.map_append]
        refine List.pairwise_append.mpr ⟨hp, by simp, ?_⟩
        intro a ha b hb2
        have hbeq : b = r + contrib t := by simpa using hb2
        subst hbeq
        exact le_trans (hb a ha) hr

theorem phase_counts (store : UnlockStore) (cur amt : ℚ) (label : String)
    (pre : List WriteA) :
    countTxnInserts (unlockSavingsPhase store cur amt label pre).writes =
      countTxnInserts pre ∧
    countSavingsWrites (unlockSavingsPhase store cur amt label pre).writes ≤
      countSavingsWrites pre + 1 := by
  unfold unlockSavingsPhase
  cases store.savingsFetch <;> cases store.savingsWriteErr <;>
    simp [countTxnInserts, countSavingsWrites, List.countP_append, List.countP_cons]

theorem phase_head (store : UnlockStore) (cur amt : ℚ) (label : String)
    (p : WriteA) (rest : List WriteA) :
    (unlockSavingsPhase store cur amt label (p :: rest)).writes.head? = some p := by
  unfold unlockSavingsPhase
  cases store.savingsFetch <;> cases store.savingsWriteErr <;> simp

/-! Claim theorems. -/

/-- Claim C1, counterexample: with savings percent 20 and fetched locked
amount 10, an allowance of one cent leads the handler to persist
10 + 1/500 (the unrounded increment amount times percent over 100), while
the claim demands the increment round2 of that product, which is 0. -/
theorem allowance_rounding_cex :
    (handleAddAllowance ⟨none, FetchRes.row 10, none⟩ (1/100) 20).writes =
      [WriteA.insertTxn none, WriteA.updateSavings (10 + 1/500)] ∧
    round2 ((1/100) * ((20 : ℤ) : ℚ) / 100) = 0 ∧
    (10 + 1/500 : ℚ) ≠ 10 + round2 ((1/100) * ((20 : ℤ) : ℚ) / 100) := by
  refine ⟨by decide, ?_, ?_⟩ <;> decide

/-- Claim C1, amended: an accepted allowance of positive amount persists a
locked balance increased by exactly amount times percent over 100, with no
rounding applied before accumulation; rounding happens only in display. -/
theorem allowance_increment_unrounded (current amt : ℚ) (p : ℤ) (h : 0 < amt) :
    (handleAddAllowance ⟨none, FetchRes.row current, none⟩ amt p).writes =
      [WriteA.insertTxn none, WriteA.updateSavings (current + amt * ((p : ℚ) / 100))] ∧
    (handleAddAllowance ⟨none, FetchRes.notFound, none⟩ amt p).writes =
      [WriteA.insertTxn none, WriteA.insertSavings (0 + amt * ((p : ℚ) / 100))] := by
  constructor <;> simp [handleAddAllowance, not_le.mpr h]

/-- Witness for the amended C1 at current 10, amount one half, percent 20. -/
theorem allowance_increment_unrounded_witness :
    (0 : ℚ) < 1/2 ∧
    (handleAddAllowance ⟨none, FetchRes.row 10, none⟩ (1/2) 20).writes =
      [WriteA.insertTxn none, WriteA.updateSavings (10 + (1/2) * (((20 : ℤ) : ℚ) / 100))] :=
  ⟨by norm_num, (allowance_increment_unrounded 10 (1/2) 20 (by norm_num)).1⟩

/-- Claim C2, counterexample: the aggregator adds 20 for an allowance of
100 whatever the savings-percentage setting is; with the current setting
at 50 percent the claim demands an increment of 50, not 20. -/
theorem aggregator_percent_cex :
    cumul [⟨TxType.allowance, 100, ⟨2024, 1, 5⟩⟩] = 20 ∧
    (100 : ℚ) * 50 / 100 = 50 ∧
    cumul [⟨TxType.allowance, 100, ⟨2024, 1, 5⟩⟩] ≠ (100 : ℚ) * 50 / 100 := by
  refine ⟨by decide, by decide, by decide⟩

/-- Claim C2, amended: the aggregator adds amount times 20 over 100 for
every allowance, using the hardcoded factor 0.2 and ignoring the
savings-percentage setting entirely, and subtracts the full amount for
every unlock. -/
theorem aggregator_fixed_twenty_percent (txs : List Txn) (a : ℚ) (d : DateYMD) :
    cumul (txs ++ [⟨TxType.allowance, a, d⟩]) = cumul txs + a * (20 / 100) ∧
    cumul (txs ++ [⟨TxType.unlock, a, d⟩]) = cumul txs - a := by
  constructor <;> rw [cumul_app] <;> simp only [contrib] <;> ring_nf

/-- Claim C3: an unlock whose amount is not strictly positive or exceeds
the current locked balance is rejected with the exact validation message,
before any write is attempted, leaving the balance unchanged. -/
theorem unlock_invalid_amount_rejected (store : UnlockStore) (cur amt : ℚ)
    (reason notes : String) (h : amt ≤ 0 ∨ cur < amt) :
    handleUnlock store cur amt reason notes =
      ⟨"Enter a valid amount up to $" ++ fmt2 cur, [], false⟩ := by
  unfold handleUnlock
  rw [if_pos h]

/-- Witness for C3 at locked 15 and requested 20: rejected with the
message naming 15.00 and an empty write list. -/
theorem unlock_invalid_amount_rejected_witness :
    ((20 : ℚ) ≤ 0 ∨ (15 : ℚ) < 20) ∧
    handleUnlock ⟨none, none, FetchRes.row 15, none⟩ 15 20 "emergency" "" =
      ⟨"Enter a valid amount up to $15.00", [], false⟩ :=
  ⟨Or.inr (by norm_num),
    (unlock_invalid_amount_rejected ⟨none, none, FetchRes.row 15, none⟩ 15 20
      "emergency" "" (Or.inr (by norm_num))).trans (by decide)⟩

/-- Claim C4, counterexample: at percent 60, outside the range 5 to 50,
handleUpdate still attempts the settings upsert and reports success; no
local validation rejects it. -/
theorem updatePercent_no_validation_cex :
    (handleUpdate 60 none).writes = [SettingWrite.upsertSetting 60] ∧
    (handleUpdate 60 none).ok = true ∧
    ¬ ((5 : ℤ) ≤ 60 ∧ (60 : ℤ) ≤ 50) := by
  refine ⟨rfl, rfl, by decide⟩

/-- Claim C4, amended: handleUpdate performs no range validation at all;
for every percent value it attempts exactly one settings upsert carrying
that value, whether or not the store then reports an error. The range 5
to 50 is only imposed by the min and max attributes of the slider input. -/
theorem updatePercent_always_writes (p : ℤ) (e : Option Err) :
    (handleUpdate p e).writes = [SettingWrite.upsertSetting p] := by
  cases e <;> rfl

/-- Claim C5, counterexample: when the first transaction insert fails with
an error message mentioning the notes column, handleUnlock automatically
retries the insert within the same operation, so an accepted unlock
attempts the transaction write twice, not at most once. -/
theorem unlock_retry_cex :
    countTxnInserts (handleUnlock
      ⟨some ⟨"", "could not find the notes column"⟩, none, FetchRes.row 50, none⟩
      50 10 "emergency" "details").writes = 2 ∧
    ¬ countTxnInserts (handleUnlock
      ⟨some ⟨"", "could not find the notes column"⟩, none, FetchRes.row 50, none⟩
      50 10 "emergency" "details").writes ≤ 1 := by
  refine ⟨by decide, by decide⟩

/-- Claim C5, amended: within one handleUnlock call the transaction insert
is attempted at most twice, a second attempt occurring only when the first
failed with an error message mentioning notes or column, and the savings
write is attempted at most once; handleAddAllowance attempts each of its
writes at most once. No other automatic retry exists, so after a final
failure the user must re-trigger the action. -/
theorem write_attempt_bounds :
    (∀ (store : UnlockStore) (cur amt : ℚ) (reason notes : String),
       countTxnInserts (handleUnlock store cur amt reason notes).writes ≤ 2 ∧
       countSavingsWrites (handleUnlock store cur amt reason notes).writes ≤ 1 ∧
       (countTxnInserts (handleUnlock store cur amt reason notes).writes = 2 →
         ∃ e, store.insertTxnErr = some e ∧ notesColumnErr e = true)) ∧
    (∀ (store : AllowStore) (amt : ℚ) (p : ℤ),
       countTxnInserts (handleAddAllowance store amt p).writes ≤ 1 ∧
       countSavingsWrites (handleAddAllowance store amt p).writes ≤ 1) := by
  constructor
  · intro store cur amt reason notes
    obtain ⟨ie, re, sf, we⟩ := store
    by_cases h1 : amt ≤ 0 ∨ cur < amt
    · simp [handleUnlock, h1, countTxnInserts, countSavingsWrites]
    · by_cases h2 : reason = ""
      · simp [handleUnlock, h1, h2, countTxnInserts, countSavingsWrites]
      · by_cases h3 : reason = "other" ∧ jsTrim notes = ""
        · simp [handleUnlock, h1, h2, h3, countTxnInserts, countSavingsWrites]
        · cases ie with
          | none =>
            cases sf <;> cases we <;>
              simp [handleUnlock, unlockSavingsPhase, h1, h2, h3, countTxnInserts,
                countSavingsWrites, List.countP_cons, List.countP_append]
          | some e =>
            by_cases hnce : notesColumnErr e = true
            · cases re <;> cases sf <;> cases we <;>
                simp [handleUnlock, unlockSavingsPhase, h1, h2, h3, hnce,
                  countTxnInserts, countSavingsWrites, List.countP_cons,
                  List.countP_append]
            · simp [handleUnlock, h1, h2, h3, hnce, countTxnInserts,
                countSavingsWrites, List.countP_cons]
  · intro store amt p
    obtain ⟨ie, sf, we⟩ := store
    by_cases h1 : amt ≤ 0
    · simp [handleAddAllowance, h1, countTxnInserts, countSavingsWrites]
    · cases ie <;> cases sf <;> cases we <;>
        simp [handleAddAllowance, h1, countTxnInserts, countSavingsWrites,
          List.countP_cons]

/-- Witness for the amended C5: the retrying store attempts exactly two
transaction inserts and its first error mentions the notes column. -/
theorem write_attempt_bounds_witness :
    countSavingsWrites (handleUnlock
      ⟨some ⟨"", "could not find the notes column"⟩, none, FetchRes.row 50, none⟩
      50 10 "emergency" "details").writes ≤ 1 ∧
    ∃ e, (some (⟨"", "could not find the notes column"⟩ : Err) = some e ∧
      notesColumnErr e = true) :=
  ⟨(write_attempt_bounds.1
      ⟨some ⟨"", "could not find the notes column"⟩, none, FetchRes.row 50, none⟩
      50 10 "emergency" "details").2.1,
   (write_attempt_bounds.1
      ⟨some ⟨"", "could not find the notes column"⟩, none, FetchRes.row 50, none⟩
      50 10 "emergency" "details").2.2 (by decide)⟩

/-- Claim C6: with a valid amount and reason other, blank notes (empty or
whitespace-only after trimming) are rejected before any write with the
details-prompt message, and non-blank notes pass validation, the first
attempted write being the transaction insert carrying the trimmed notes. -/
theorem unlock_other_notes_validation (store : UnlockStore) (cur amt : ℚ)
    (notes : String) (h0 : 0 < amt) (h1 : amt ≤ cur) :
    (jsTrim notes = "" →
      handleUnlock store cur amt "other" notes =
        ⟨"Please provide details for your reason", [], false⟩) ∧
    (jsTrim notes ≠ "" →
      (handleUnlock store cur amt "other" notes).writes.head? =
        some (WriteA.insertTxn (some (jsTrim notes)))) := by
  have hv : ¬ (amt ≤ 0 ∨ cur < amt) := by
    push_neg
    constructor <;> linarith
  constructor
  · intro ht
    unfold handleUnlock
    rw [if_neg hv, if_neg (show ¬ ("other" : String) = "" by decide),
      if_pos ⟨rfl, ht⟩]
  · intro ht
    obtain ⟨ie, re, sf, we⟩ := store
    cases ie with
    | none =>
      cases sf <;> cases we <;>
        simp [handleUnlock, unlockSavingsPhase, hv, ht,
          show ¬ ("other" : String) = "" by decide]
    | some e =>
      by_cases hnce : notesColumnErr e = true
      · cases re <;> cases sf <;> cases we <;>
          simp [handleUnlock, unlockSavingsPhase, hv, ht, hnce,
            show ¬ ("other" : String) = "" by decide]
      · simp [handleUnlock, hv, ht, hnce,
          show ¬ ("other" : String) = "" by decide]

/-- Witness for C6 at locked 50 and amount 10: blank notes rejected with
no write, and the notes value car repair accepted with the insert first. -/
theorem unlock_other_notes_validation_witness :
    handleUnlock ⟨none, none, FetchRes.row 50, none⟩ 50 10 "other" "   " =
      ⟨"Please provide details for your reason", [], false⟩ ∧
    (handleUnlock ⟨none, none, FetchRes.row 50, none⟩ 50 10 "other"
      "car repair").writes.head? = some (WriteA.insertTxn (some "car repair")) := by
  constructor
  · exact (unlock_other_notes_validation ⟨none, none, FetchRes.row 50, none⟩ 50 10
      "   " (by norm_num) (by norm_num)).1 (by decide)
  · have h := (unlock_other_notes_validation ⟨none, none, FetchRes.row 50, none⟩ 50 10
      "car repair" (by norm_num) (by norm_num)).2 (by decide)
    have e : jsTrim "car repair" = "car repair" := by decide
    rw [e] at h
    exact h

/-- Claim C8, counterexample: the weekly bucket key carries only the ISO
week number, so 2023-01-10 and 2024-01-10 (both in ISO week 2 of their
respective years) land in the same bucket, and a two-transaction history
spanning those dates collapses to a single weekly bucket. -/
theorem weekly_key_year_collision_cex :
    dateKeyOf Interval.weekly ⟨2023, 1, 10⟩ = "Week 2" ∧
    dateKeyOf Interval.weekly ⟨2024, 1, 10⟩ = "Week 2" ∧
    (2023 ≠ 2024) ∧
    (buildPairs Interval.weekly
      [⟨TxType.allowance, 100, ⟨2023, 1, 10⟩⟩,
       ⟨TxType.allowance, 100, ⟨2024, 1, 10⟩⟩]).length = 1 := by
  refine ⟨by decide, by decide, by decide, by decide⟩

/-- Claim C8, amended: the weekly bucket label is Week followed by the ISO
week number alone, so any two dates with equal ISO week numbers share a
bucket regardless of their years. -/
theorem weekly_key_ignores_year (d1 d2 : DateYMD) (h : isoWeek d1 = isoWeek d2) :
    dateKeyOf Interval.weekly d1 = dateKeyOf Interval.weekly d2 := by
  simp [dateKeyOf, h]

/-- Witness for the amended C8 at 2023-01-10 and 2024-01-10. -/
theorem weekly_key_ignores_year_witness :
    isoWeek ⟨2023, 1, 10⟩ = isoWeek ⟨2024, 1, 10⟩ ∧
    dateKeyOf Interval.weekly ⟨2023, 1, 10⟩ = dateKeyOf Interval.weekly ⟨2024, 1, 10⟩ :=
  ⟨by decide, weekly_key_ignores_year ⟨2023, 1, 10⟩ ⟨2024, 1, 10⟩ (by decide)⟩

/-- Claim C7: bucket keys of the aggregator output are free of
duplicates, so transactions sharing a bucket collapse to exactly one
entry; the entry of a bucket whose last transaction sits at position i
holds the running cumulative total over the whole prefix through i (a
snapshot, not a per-bucket sum); and the two January 2024 allowances of
100 and 50 at the fixed 20 percent yield the single bucket January 2024
with value 30. -/
theorem bucket_snapshot_collapse :
    (∀ (g : Interval) (txs : List Txn), ((buildPairs g txs).map Prod.fst).Nodup) ∧
    (∀ (g : Interval) (txs : List Txn), Chronological txs →
      ∀ (i : Nat) (hi : i < txs.length),
        (∀ (j : Nat) (hj : j < txs.length), i < j →
          dateKeyOf g ((txs.get ⟨j, hj⟩).createdAt) ≠
            dateKeyOf g ((txs.get ⟨i, hi⟩).createdAt)) →
        (formatLabel g (dateKeyOf g ((txs.get ⟨i, hi⟩).createdAt)),
          round2 (cumul (txs.take (i + 1)))) ∈ buildSeries g txs) ∧
    buildSeries Interval.monthly
      [⟨TxType.allowance, 100, ⟨2024, 1, 5⟩⟩, ⟨TxType.allowance, 50, ⟨2024, 1, 20⟩⟩] =
      [("January 2024", 30)] := by
  refine ⟨?_, ?_, by decide⟩
  · intro g txs
    exact nodup_keys_foldl g txs (0, []) (by simp)
  · intro g txs _ i hi hlast
    have h := snapshot_foldl g txs 0 [] i hi hlast
    rw [zero_add] at h
    exact List.mem_map_of_mem _ (lookupQ_mem _ _ _ h)

/-- Witness for C7: the January 2024 bucket entry obtained from the
snapshot property at the last transaction of the scenario. -/
theorem bucket_snapshot_collapse_witness :
    ("January 2024", (30 : ℚ)) ∈ buildSeries Interval.monthly
      [⟨TxType.allowance, 100, ⟨2024, 1, 5⟩⟩, ⟨TxType.allowance, 50, ⟨2024, 1, 20⟩⟩] := by
  have h := bucket_snapshot_collapse.2.1 Interval.monthly
    [⟨TxType.allowance, 100, ⟨2024, 1, 5⟩⟩, ⟨TxType.allowance, 50, ⟨2024, 1, 20⟩⟩]
    (by decide) 1 (by decide) ?hj
  case hj =>
    intro j hj h1j
    have hj2 : j < 2 := by simpa using hj
    exact absurd hj2 (by omega)
  have e : (formatLabel Interval.monthly (dateKeyOf Interval.monthly
      (([⟨TxType.allowance, 100, ⟨2024, 1, 5⟩⟩,
         ⟨TxType.allowance, 50, ⟨2024, 1, 20⟩⟩] : List Txn).get
        ⟨1, by decide⟩).createdAt),
      round2 (cumul (([⟨TxType.allowance, 100, ⟨2024, 1, 5⟩⟩,
         ⟨TxType.allowance, 50, ⟨2024, 1, 20⟩⟩] : List Txn).take 2))) =
      ("January 2024", (30 : ℚ)) := by decide
  rw [e] at h
  exact h

/-- Claim C9, counterexample: a chronologically sorted pure-allowance
history with positive amounts whose weekly buckets collide across years
(2023-01-10 and 2024-01-10 are both ISO week 2) produces the series
Week 2 then Week 3 with values 60 then 40, which decreases, because the
Week 2 entry keeps its first position but receives the final running
total. -/
theorem monotone_series_cex :
    (∀ t ∈ ([⟨TxType.allowance, 100, ⟨2023, 1, 10⟩⟩,
        ⟨TxType.allowance, 100, ⟨2023, 1, 17⟩⟩,
        ⟨TxType.allowance, 100, ⟨2024, 1, 10⟩⟩] : List Txn),
      t.ty = TxType.allowance) ∧
    (∀ t ∈ ([⟨TxType.allowance, 100, ⟨2023, 1, 10⟩⟩,
        ⟨TxType.allowance, 100, ⟨2023, 1, 17⟩⟩,
        ⟨TxType.allowance, 100, ⟨2024, 1, 10⟩⟩] : List Txn), 0 < t.amount) ∧
    Chronological [⟨TxType.allowance, 100, ⟨2023, 1, 10⟩⟩,
        ⟨TxType.allowance, 100, ⟨2023, 1, 17⟩⟩,
        ⟨TxType.allowance, 100, ⟨2024, 1, 10⟩⟩] ∧
    buildSeries Interval.weekly [⟨TxType.allowance, 100, ⟨2023, 1, 10⟩⟩,
        ⟨TxType.allowance, 100, ⟨2023, 1, 17⟩⟩,
        ⟨TxType.allowance, 100, ⟨2024, 1, 10⟩⟩] =
      [("Week 2", 60), ("Week 3", 40)] ∧
    ¬ List.Pairwise (· ≤ ·)
      ((buildSeries Interval.weekly [⟨TxType.allowance, 100, ⟨2023, 1, 10⟩⟩,
        ⟨TxType.allowance, 100, ⟨2023, 1, 17⟩⟩,
        ⟨TxType.allowance, 100, ⟨2024, 1, 10⟩⟩]).map Prod.snd) := by
  refine ⟨by decide, by decide, by decide, by decide, ?_⟩
  intro h
  rw [show (buildSeries Interval.weekly [⟨TxType.allowance, 100, ⟨2023, 1, 10⟩⟩,
      ⟨TxType.allowance, 100, ⟨2023, 1, 17⟩⟩,
      ⟨TxType.allowance, 100, ⟨2024, 1, 10⟩⟩]).map Prod.snd =
    [(60 : ℚ), 40] from by decide] at h
  have h60 := (List.pairwise_cons.mp h).1 40 (List.mem_cons_self 40 [])
  norm_num at h60

/-- Claim C9, amended: for a pure-allowance history with positive amounts
whose bucket keys are contiguous (equal keys only at consecutive
positions, as holds for daily, monthly and yearly keys of a sorted
history, and for weekly keys within one ISO year), the chart series is
non-decreasing. -/
theorem series_monotone_of_contig (g : Interval) (txs : List Txn)
    (hallow : ∀ t ∈ txs, t.ty = TxType.allowance)
    (hpos : ∀ t ∈ txs, 0 < t.amount)
    (hcontig : contigP (txs.map fun t => dateKeyOf g t.createdAt)) :
    List.Pairwise (· ≤ ·) ((buildSeries g txs).map Prod.snd) := by
  have h := monotone_foldl g txs 0 [] ?hc hcontig (by simp) (by simp) (by simp)
  case hc =>
    intro t ht
    have h1 := hallow t ht
    have h2 := hpos t ht
    simp only [contrib, h1]
    positivity
  unfold buildSeries buildPairs
  unfold buildPairs at h
  rw [List.map_map]
  have hfun : (Prod.snd ∘ fun p : String × ℚ => (formatLabel g p.1, round2 p.2)) =
      fun p : String × ℚ => round2 p.2 := rfl
  rw [hfun]
  rw [List.pairwise_map] at h ⊢
  exact h.imp fun hab => round2_mono hab

/-- Witness for the amended C9: two allowances in consecutive months give
the non-decreasing series 20 then 30. -/
theorem series_monotone_of_contig_witness :
    List.Pairwise (· ≤ ·) ((buildSeries Interval.monthly
      [⟨TxType.allowance, 100, ⟨2024, 1, 5⟩⟩,
       ⟨TxType.allowance, 50, ⟨2024, 2, 3⟩⟩]).map Prod.snd) :=
  series_monotone_of_contig Interval.monthly
    [⟨TxType.allowance, 100, ⟨2024, 1, 5⟩⟩, ⟨TxType.allowance, 50, ⟨2024, 2, 3⟩⟩]
    (by decide) (by decide) (by decide)

/-- Claim C10: the amount field keeps only empty or pattern-matching
strings, the numeric amount of an accepted string is a well-defined
non-negative rational (the or-zero guard replaces NaN), and the empty
string and a lone dot both parse to 0. -/
theorem amount_field_safety (cur s : String)
    (hcur : cur = "" ∨ matchAmount cur = true) :
    (handleAmountChange cur s = "" ∨ matchAmount (handleAmountChange cur s) = true) ∧
    ((s = "" ∨ matchAmount s = true) → 0 ≤ getNumericAmount s) ∧
    getNumericAmount "" = 0 ∧ getNumericAmount "." = 0 := by
  refine ⟨?_, ?_, by decide, by decide⟩
  · unfold handleAmountChange
    split
    · assumption
    · exact hcur
  · intro _
    unfold getNumericAmount
    split
    · exact le_refl 0
    · split
      · unfold parseFloatVal
        positivity
      · exact le_refl 0

/-- Witness for C10 at the accepted field value 12.5. -/
theorem amount_field_safety_witness :
    0 ≤ getNumericAmount "12.5" ∧ getNumericAmount "" = 0 ∧ getNumericAmount "." = 0 :=
  ⟨(amount_field_safety "" "12.5" (Or.inl rfl)).2.1 (Or.inr (by decide)),
   (amount_field_safety "" "12.5" (Or.inl rfl)).2.2.1,
   (amount_field_safety "" "12.5" (Or.inl rfl)).2.2.2⟩

end PocketGrowth
